import Mathlib

set_option maxRecDepth 8000

/-!
Verification development for the social-insights repository.

The Python sources are shallowly embedded: Python floats become exact
rationals (ℚ) where only field arithmetic occurs, and real numbers (ℝ)
where a square root is taken (vector norms).  A float expression whose
denominator is zero evaluates to NaN in numpy; NaN is modelled as
`Option.none` and every comparison against it is false, exactly as in
Python.  External collaborators (the sentence-transformer embedding
model, `html.unescape`) are modelled as opaque function parameters.
-/

/-- Source type, `src/data/models.py` (`SourceType`). -/
inductive SourceType where
  | customer
  | competitor
deriving DecidableEq, Repr

/-- Silver layer post record, `src/data/models.py` (`SilverPost`).
Timestamps are modelled as integers. -/
structure SilverPost where
  post_id : String
  post_text_cleaned : String
  engagement_score : ℚ
  post_embedding : List ℚ
  source_type : SourceType
  created_at : ℤ

/-- Dot product of two float vectors, `np.dot` on equal-length lists
(`zipWith` truncates to the shorter length, as numpy broadcasting never
arises in the repository where all embeddings share one dimension). -/
def dotQ (a b : List ℚ) : ℚ := (List.zipWith (fun x y => x * y) a b).sum

/-- Squared Euclidean norm: `np.linalg.norm(v) ** 2`. -/
def normSq (a : List ℚ) : ℚ := dotQ a a

/-- `SilverToGoldProcessor.cosine_similarity`
(`src/data/silver/processor.py` lines 12-16):
`np.dot(vec1, vec2) / (np.linalg.norm(vec1) * np.linalg.norm(vec2))`.
When either norm is zero the denominator is zero and the dot product is
also zero, so numpy evaluates `0.0 / 0.0 = NaN`; this is modelled as
`none`.  Otherwise the exact real value is returned. -/
noncomputable def cosine_similarity (vec1 vec2 : List ℚ) : Option ℝ :=
  if normSq vec1 = 0 ∨ normSq vec2 = 0 then none
  else some ((dotQ vec1 vec2 : ℝ) /
    (Real.sqrt (normSq vec1) * Real.sqrt (normSq vec2)))

/-! ### Stable sorting by key, descending

Python's `list.sort(key=f, reverse=True)` and `sorted(..., key=f, reverse=True)`
are stable: elements with equal keys keep their input order.  We model them by
insertion sort: an element is inserted before the first element whose key is
not strictly greater, so earlier input elements stay before later ones with
equal keys. -/

/-- Insert `x` into `l` keeping keys descending; `x` goes after every element
with a strictly greater key and before everything else. -/
def insKeyDesc {α K : Type} [LinearOrder K] (key : α → K) (x : α) :
    List α → List α
  | [] => [x]
  | y :: ys => if key x < key y then y :: insKeyDesc key x ys else x :: y :: ys

/-- Stable sort with keys descending (Python `sort(key=key, reverse=True)`). -/
def sortKeyDesc {α K : Type} [LinearOrder K] (key : α → K) :
    List α → List α
  | [] => []
  | x :: xs => insKeyDesc key x (sortKeyDesc key xs)

/-- The sublist of elements whose key equals `k`; used to state stability. -/
def filterKeyEq {α K : Type} [LinearOrder K] (key : α → K) (k : K)
    (l : List α) : List α :=
  l.filter (fun a => decide (key a = k))

/-! ### Similarity search (`SilverToGoldProcessor.find_similar_posts`,
`src/data/silver/processor.py` lines 24-60)

`generate_query_embedding` is a stub for the opaque embedding provider
(the spec treats the embedding model as an external collaborator), so the
search is modelled as a function of the query embedding. -/

/-- One element of the returned result list (the dict built at lines 51-58). -/
structure SimilarityResult where
  post_id : String
  post_text : String
  similarity_score : ℝ
  engagement_score : ℚ
  source_type : SourceType
  created_at : ℤ

/-- The candidate-collection loop (lines 36-43): skip posts whose engagement
is below the threshold, compute the cosine similarity and keep it when
`similarity >= min_similarity`.  A NaN similarity (`none`) fails the
comparison, exactly as in Python. -/
noncomputable def candidateSimilarities (query_embedding : List ℚ)
    (engagement_threshold : ℚ) (min_similarity : ℝ) :
    List SilverPost → List (ℝ × SilverPost)
  | [] => []
  | post :: rest =>
    let tail := candidateSimilarities query_embedding engagement_threshold
      min_similarity rest
    if post.engagement_score < engagement_threshold then tail
    else
      match cosine_similarity query_embedding post.post_embedding with
      | none => tail
      | some s => if min_similarity ≤ s then (s, post) :: tail else tail

/-- `find_similar_posts`: collect candidates, stable-sort by similarity
descending (`similarities.sort(key=lambda x: x[0], reverse=True)`), truncate
to `top_k` and build the result records. -/
noncomputable def find_similar_posts (query_embedding : List ℚ)
    (posts : List SilverPost) (top_k : ℕ) (min_similarity : ℝ)
    (engagement_threshold : ℚ) : List SimilarityResult :=
  let sorted := sortKeyDesc Prod.fst
    (candidateSimilarities query_embedding engagement_threshold min_similarity
      posts)
  (sorted.take top_k).map (fun sp =>
    { post_id := sp.2.post_id
      post_text := sp.2.post_text_cleaned
      similarity_score := sp.1
      engagement_score := sp.2.engagement_score
      source_type := sp.2.source_type
      created_at := sp.2.created_at })

/-! ### Percentiles (`np.percentile(xs, q)` with the default linear
interpolation: sort ascending, interpolate at position `q/100 * (n-1)`) -/

/-- Ascending insertion for rational scores. -/
def insAsc (x : ℚ) : List ℚ → List ℚ
  | [] => [x]
  | y :: ys => if y ≤ x then y :: insAsc x ys else x :: y :: ys

/-- Ascending sort for rational scores. -/
def sortAsc : List ℚ → List ℚ
  | [] => []
  | x :: xs => insAsc x (sortAsc xs)

/-- Linear interpolation of a sorted sequence at fractional position `h`:
`s[floor h] + (h - floor h) * (s[floor h + 1] - s[floor h])`.  When
`floor h` is the last index the out-of-range read defaults to `s[floor h]`,
where the interpolation weight is zero anyway. -/
def interpAt (s : List ℚ) (h : ℚ) : ℚ :=
  let lo : ℕ := (Int.toNat ⌊h⌋)
  let a := s.getD lo 0
  let b := s.getD (lo + 1) a
  a + (h - (lo : ℚ)) * (b - a)

/-- `np.percentile(xs, q)` (linear method).  The repository only calls it on
non-empty data; the empty case is given the junk value `0`. -/
def percentile (xs : List ℚ) (q : ℚ) : ℚ :=
  if xs = [] then 0
  else interpAt (sortAsc xs) (q * ((xs.length : ℚ) - 1) / 100)

/-! ### Word-frequency topic extraction -/

/-- Python `\w` restricted to ASCII: alphanumeric or underscore.  (Python's
regexes also accept non-ASCII word characters; the model covers the ASCII
fragment the repository's data pipeline manipulates.) -/
def isWordChar (c : Char) : Bool := c.isAlphanum || c = '_'

/-- Python `str.lower()` (ASCII fragment): lowercase every character.
(`String.toLower` has the same value; this formulation maps over the
character list, which the kernel can evaluate.) -/
def pyLower (s : String) : String := String.mk (s.data.map Char.toLower)

/-- Accumulator-style scanner producing the maximal runs of word characters
of a string, in order; models `re.findall` of a `\b\w{n,}\b` pattern before
the length filter. -/
def wordRunsAux (cur : List Char) : List Char → List (List Char)
  | [] => if cur.isEmpty then [] else [cur.reverse]
  | c :: cs =>
    if isWordChar c then wordRunsAux (c :: cur) cs
    else if cur.isEmpty then wordRunsAux [] cs
    else cur.reverse :: wordRunsAux [] cs

/-- Maximal word-character runs of a character list. -/
def wordRuns (cs : List Char) : List (List Char) := wordRunsAux [] cs

/-- `re.findall(r'\b\w{n,}\b', text.lower())`: the maximal word-character
runs of the lowercased text having at least `n` characters. -/
def tokensMin (n : ℕ) (text : String) : List String :=
  ((wordRuns (pyLower text).data).filter (fun r => n ≤ r.length)).map
    (fun r => String.mk r)

/-- One `word_counts[word] += 1` step on an association list that keeps keys
in first-insertion order, as a Python dict does. -/
def bump (w : String) : List (String × ℕ) → List (String × ℕ)
  | [] => [(w, 1)]
  | (k, c) :: rest =>
    if k = w then (k, c + 1) :: rest else (k, c) :: bump w rest

/-- Count word frequencies in encounter order (`defaultdict(int)` filled by
the nested loops). -/
def countWords (ws : List String) : List (String × ℕ) :=
  ws.foldl (fun acc w => bump w acc) []

/-- Stopword set of `SilverToGoldProcessor._extract_top_topics`
(`src/data/silver/processor.py` line 141). -/
def silver_stopwords : List String :=
  ["the", "and", "for", "with", "this", "that", "was", "were", "are", "you",
    "your", "have", "has", "had", "they", "their"]

/-- `SilverToGoldProcessor._extract_top_topics` (silver variant, lines
129-148): tokens are word runs of length at least 3 of the lowercased
cleaned text, stopwords are dropped (no numeric filter), frequencies are
counted over all posts, and the `top_n` most frequent words are reported
with their raw counts. -/
def silver_extract_top_topics (posts : List SilverPost) (top_n : ℕ) :
    List (String × ℕ) :=
  let ws := (posts.map (fun p =>
    (tokensMin 3 p.post_text_cleaned).filter
      (fun w => !(silver_stopwords.contains w)))).flatten
  (sortKeyDesc Prod.snd (countWords ws)).take top_n

/-- Stopword set of `GoldLayerProcessor._extract_top_topics`
(`src/data/gold/process.py` lines 265-266). -/
def gold_stopwords : List String :=
  ["this", "that", "with", "have", "from", "your", "they", "their", "there",
    "what", "when", "where", "which", "will", "would", "been", "also"]

/-- Python `str.isdigit` on ASCII tokens: every character is a digit (the
tokens reaching the check are non-empty). -/
def isDigitTok (w : String) : Bool := w.data.all Char.isDigit

/-- The tokens that survive filtering in `GoldLayerProcessor._extract_top_topics`
(lines 260-270): word runs of length at least 4 of each lowercased post text,
minus stopwords and purely numeric tokens, in encounter order. -/
def gold_surviving_tokens (texts : List String) : List String :=
  (texts.map (fun t =>
    (tokensMin 4 t).filter
      (fun w => !(gold_stopwords.contains w) && !(isDigitTok w)))).flatten

/-- `max_count = sorted_words[0][1] if sorted_words else 1`
(`src/data/gold/process.py` line 276): the count of the first (most
frequent) sorted word, defaulting to 1. -/
def gold_max_count (texts : List String) : ℕ :=
  match sortKeyDesc Prod.snd (countWords (gold_surviving_tokens texts)) with
  | [] => 1
  | p :: _ => p.2

/-- `GoldLayerProcessor._extract_top_topics` (`src/data/gold/process.py`
lines 243-285): count surviving tokens, sort by frequency descending
(stable), take `top_n`, and normalize each count by the maximum count. -/
def gold_extract_top_topics (texts : List String) (top_n : ℕ) :
    List (String × ℚ) :=
  ((sortKeyDesc Prod.snd (countWords (gold_surviving_tokens texts))).take
      top_n).map
    (fun p => (p.1, (p.2 : ℚ) / (gold_max_count texts : ℚ)))

/-- The keys of a Python dict in insertion order: first occurrences of the
token stream, given the set already seen. -/
def firstOccurAux (seen : List String) : List String → List String
  | [] => []
  | w :: ws =>
    if w ∈ seen then firstOccurAux seen ws
    else w :: firstOccurAux (w :: seen) ws

/-- The distinct elements of a list in order of first occurrence. -/
def firstOccur (ws : List String) : List String := firstOccurAux [] ws

/-! ### Marketing insights (`SilverToGoldProcessor.generate_marketing_insights`,
`src/data/silver/processor.py` lines 62-127) -/

/-- `GoldInsight` of `src/data/models.py` (`created_at` defaulting is
irrelevant to the claims and omitted). -/
structure GoldInsight where
  query_text : String
  post_id : String
  cosine_similarity_score : ℝ
  engagement_score : ℚ
  post_text_cleaned : String
  source_type : SourceType

/-- `MarketingInsights` of `src/data/models.py`; `engagement_metrics` is the
literal key/value dict built by the processor, kept as an association list so
that the set of keys that are present is part of the model. -/
structure MarketingInsights where
  high_value_content : List GoldInsight
  content_gaps : List GoldInsight
  top_performing_topics : List (String × ℕ)
  engagement_metrics : List (String × ℚ)

/-- Python `max` over a non-empty list of scores. -/
def listMax : List ℚ → ℚ
  | [] => 0
  | x :: xs => xs.foldl max x

/-- The categorization loop (lines 99-112): a result with engagement at or
above the high threshold becomes high-value; otherwise, one at or below the
low threshold becomes a content gap; anything strictly between is dropped. -/
def categorize (query : String) (thrHigh thrLow : ℚ) :
    List SimilarityResult → List GoldInsight × List GoldInsight
  | [] => ([], [])
  | r :: rest =>
    let tail := categorize query thrHigh thrLow rest
    let insight : GoldInsight :=
      { query_text := query
        post_id := r.post_id
        cosine_similarity_score := r.similarity_score
        engagement_score := r.engagement_score
        post_text_cleaned := r.post_text
        source_type := r.source_type }
    if thrHigh ≤ r.engagement_score then (insight :: tail.1, tail.2)
    else if r.engagement_score ≤ thrLow then (tail.1, insight :: tail.2)
    else tail

/-- `generate_marketing_insights` (lines 62-127), as a function of the opaque
query embedding.  On an empty post list it returns the literal empty bundle
whose metrics dict holds only `avg_engagement` and `max_engagement`.
Otherwise the 75th/25th engagement percentiles are taken over the whole input
`posts` list, `find_similar_posts` is called with `top_k * 2` and
`min_similarity = similarity_threshold`, the similar posts are categorized
against those thresholds, and each bucket is truncated to `top_k`. -/
noncomputable def generate_marketing_insights (query_embedding : List ℚ)
    (query : String) (posts : List SilverPost) (top_k : ℕ)
    (similarity_threshold : ℝ) : MarketingInsights :=
  match posts with
  | [] =>
    { high_value_content := []
      content_gaps := []
      top_performing_topics := []
      engagement_metrics :=
        [("avg_engagement", 0), ("max_engagement", 0)] }
  | p :: ps =>
    let engagement_scores := (p :: ps).map (fun q => q.engagement_score)
    let avg_engagement := engagement_scores.sum /
      (engagement_scores.length : ℚ)
    let max_engagement := listMax engagement_scores
    let thrHigh := percentile engagement_scores 75
    let thrLow := percentile engagement_scores 25
    let similar := find_similar_posts query_embedding (p :: ps) (top_k * 2)
      similarity_threshold 0
    let buckets := categorize query thrHigh thrLow similar
    { high_value_content := buckets.1.take top_k
      content_gaps := buckets.2.take top_k
      top_performing_topics := silver_extract_top_topics (p :: ps) 5
      engagement_metrics :=
        [("avg_engagement", avg_engagement),
          ("max_engagement", max_engagement),
          ("high_engagement_threshold", thrHigh),
          ("low_engagement_threshold", thrLow)] }

/-! ### Source classification (`classify_source_type`,
`src/data/ingestion/utils/text_cleaning.py` lines 53-79) -/

/-- `needle` is a leading segment of `hay`. -/
def leadsWith : List Char → List Char → Bool
  | [], _ => true
  | _ :: _, [] => false
  | a :: as, b :: bs => a == b && leadsWith as bs

/-- Python substring membership `needle in hay` on character lists. -/
def occursIn (needle : List Char) : List Char → Bool
  | [] => needle.isEmpty
  | c :: t => leadsWith needle (c :: t) || occursIn needle t

/-- Python `needle in hay` on strings. -/
def strIn (needle hay : String) : Bool := occursIn needle.data hay.data

/-- Reviewer/influencer indicator list (line 74). -/
def reviewer_indicators : List String :=
  ["review", "impression", "hands on", "unboxing", "test", "vs", "comparison"]

/-- `classify_source_type(author, content, company_keywords)`: competitor
keywords are matched against the lowercased author handle (either the
company name or `official` + name as a substring); failing that, reviewer
indicators are matched against the lowercased content; the default is
`Customer`.  The source's early-`return` loop is equivalent to the
existential checks because every arm returns the same constant. -/
def classify_source_type (author content : String)
    (company_keywords : List String) : String :=
  let author_lower := pyLower author
  let content_lower := pyLower content
  if company_keywords.any (fun company =>
      strIn (pyLower company) author_lower ||
      strIn (String.append ("official") (pyLower company)) author_lower) then
    ("Competitor")
  else if reviewer_indicators.any (fun ind => strIn ind content_lower) then
    ("Reviewer")
  else ("Customer")

/-! ### Text cleaning (`clean_text`,
`src/data/ingestion/utils/text_cleaning.py` lines 5-35)

`html.unescape` is a stdlib collaborator decoding HTML entities; it is
modelled as an opaque function parameter (on entity-free input it is the
identity).  Every theorem below quantifies over it. -/

/-- Python `\s` (ASCII fragment): space, tab, newline, carriage return,
vertical tab, form feed. -/
def pyWhitespace (c : Char) : Bool :=
  c == ' ' || c == '\t' || c == '\n' || c == '\r' ||
  c == '\x0B' || c == '\x0C'

/-- The character class of the URL regex at line 21:
`[a-zA-Z]|[0-9]|[$-_@.&+]|[!*\\(\\),]|%..` — `[$-_]` is the byte range
0x24–0x5F (which already contains `%`, so the escape alternative adds no
further characters). -/
def urlChar (c : Char) : Bool :=
  c.isAlpha || c.isDigit || (0x24 ≤ c.toNat && c.toNat ≤ 0x5F) ||
  c == '!' || c == '*' || c == '\\' || c == '(' || c == ')' || c == ','

/-- Try to match `http[s]?://` followed by at least one URL character at the
head of the list; on success return the remainder after the greedy maximal
run.  When `https://` is not followed by a URL character the regex cannot
backtrack into a match (`http` + `://` fails on the `s`), so `none` is
correct there too. -/
def tryUrl (cs : List Char) : Option (List Char) :=
  match cs with
  | 'h' :: 't' :: 't' :: 'p' :: rest =>
    match rest with
    | 's' :: ':' :: '/' :: '/' :: r2 =>
      match r2 with
      | c :: cs2 => if urlChar c then some (cs2.dropWhile urlChar) else none
      | [] => none
    | ':' :: '/' :: '/' :: r2 =>
      match r2 with
      | c :: cs2 => if urlChar c then some (cs2.dropWhile urlChar) else none
      | [] => none
    | _ => none
  | _ => none

/-- `re.sub(urlRegex, '', text)`: delete every (leftmost, greedy) URL match.
The fuel argument is initialized with the list length, which bounds the
number of steps since every step consumes at least one character. -/
def urlStripFuel : ℕ → List Char → List Char
  | 0, cs => cs
  | _ + 1, [] => []
  | n + 1, c :: rest =>
    match tryUrl (c :: rest) with
    | some rem => urlStripFuel n rem
    | none => c :: urlStripFuel n rest

/-- Characters kept by the first filter (line 27): `[^\w\s#@.,!?'-]` is
removed, i.e. word characters, whitespace, `#`, `@`, `.`, `,`, `!`, `?`,
the apostrophe (codepoint 39) and `-` are kept. -/
def step3Keep (c : Char) : Bool :=
  isWordChar c || pyWhitespace c || c == '#' || c == '@' || c == '.' ||
  c == ',' || c == '!' || c == '?' || c.toNat == 39 || c == '-'

/-- Characters kept by the final filter (line 33): `[^\w\s.,!?]` is removed. -/
def step5Keep (c : Char) : Bool :=
  isWordChar c || pyWhitespace c || c == '.' || c == ',' || c == '!' ||
  c == '?'

/-- `re.sub(r'\s+', ' ', text)`: every maximal whitespace run becomes a
single space (the run's last character is emitted as a space). -/
def collapseWs : List Char → List Char
  | [] => []
  | [c] => if pyWhitespace c then [' '] else [c]
  | c :: d :: cs =>
    if pyWhitespace c && pyWhitespace d then collapseWs (d :: cs)
    else (if pyWhitespace c then ' ' else c) :: collapseWs (d :: cs)

/-- Python `str.strip()`: drop leading and trailing whitespace. -/
def stripEnds (cs : List Char) : List Char :=
  ((cs.dropWhile pyWhitespace).reverse.dropWhile pyWhitespace).reverse

/-- Python `str.strip()` on strings. -/
def pyStrip (s : String) : String := String.mk (stripEnds s.data)

/-- `clean_text(raw_text)`: empty input short-circuits; then URL removal,
HTML unescaping, the permissive character filter, whitespace collapsing
with strip, and the final punctuation filter, in source order. -/
def clean_text (unescape : String → String) (raw_text : String) : String :=
  if raw_text = "" then ""
  else
    let t1 := urlStripFuel raw_text.data.length raw_text.data
    let t2 := (unescape (String.mk t1)).data
    let t3 := t2.filter step3Keep
    let t4 := stripEnds (collapseWs t3)
    let t5 := t4.filter step5Keep
    String.mk t5

/-! ### Incremental pipeline (`process_bronze_to_silver`,
`src/data/silver/process_enhanced.py` lines 55-205) and the data quality
validator (`src/data/ingestion/utils/great_expectations.py`) -/

/-- One row fetched from `bronze.social_posts` (the fields the transform
reads; `NULL` counters are already coalesced to 0 as at lines 98-100). -/
structure BronzeRow where
  post_id : String
  author_username : String
  content : String
  likes : ℕ
  shares : ℕ
  comments : ℕ

/-- `calculate_engagement_score` (`text_cleaning.py` lines 37-51):
`0.2*likes + 0.3*shares + 0.5*comments`, with the float literals read as
exact rationals. -/
def calculate_engagement_score (likes shares comments : ℕ) : ℚ :=
  (2 : ℚ) / 10 * likes + (3 : ℚ) / 10 * shares + (5 : ℚ) / 10 * comments

/-- `get_competitor_keywords` (`process_enhanced.py` lines 24-26). -/
def get_competitor_keywords : List String :=
  ["huawei", "samsung", "pixel", "google"]

/-- `deduplicate_posts` (`text_cleaning.py` lines 81-103): drop a post when
the normalized content key (lowercased, stripped) was already seen earlier
in the batch; first occurrence wins.  Python hashes the key; the hash is
modelled as injective, i.e. keys are compared directly. -/
def dedupAux (seen : List String) : List BronzeRow → List BronzeRow
  | [] => []
  | p :: rest =>
    let k := pyStrip (pyLower p.content)
    if seen.contains k then dedupAux seen rest
    else p :: dedupAux (k :: seen) rest

/-- `deduplicate_posts` on a whole batch. -/
def deduplicate_posts (posts : List BronzeRow) : List BronzeRow :=
  dedupAux [] posts

/-- A processed (silver) row as assembled by the pipeline before insertion. -/
structure ProcessedRow where
  post_id : String
  post_text_cleaned : String
  engagement_score : ℚ
  source_type : String
  post_embedding : List ℚ

/-- Rows with missing (falsy, i.e. empty) cleaned text
(`great_expectations.py` line 63). -/
def nullTextCount (posts : List ProcessedRow) : ℕ :=
  (posts.filter (fun p => p.post_text_cleaned.isEmpty)).length

/-- Rows whose embedding is not a 384-vector (lines 69-71). -/
def invalidEmbeddingCount (posts : List ProcessedRow) : ℕ :=
  (posts.filter (fun p => !(p.post_embedding.length == 384))).length

/-- The `passed` flag of `DataQualityValidator.validate_data_quality`
(lines 53-91): false when more than 1% of the batch has missing cleaned
text, or when any embedding has the wrong dimension. -/
def validate_data_quality_passed (posts : List ProcessedRow) : Bool :=
  !(decide ((1 : ℚ) / 100 <
      (nullTextCount posts : ℚ) / (posts.length : ℚ))) &&
  !(decide (0 < invalidEmbeddingCount posts))

/-- The transform applied to each surviving row (steps A2, A4, A5 of
`process_bronze_to_silver`): clean the content, compute the engagement
score und source type, and embed the cleaned text with the opaque model.
Cleaning commutes with deduplication because deduplication only reads the
raw `content` field. -/
def processRows (embed : String → List ℚ) (unescape : String → String)
    (rows : List BronzeRow) : List ProcessedRow :=
  (deduplicate_posts rows).map (fun r =>
    let cleaned := clean_text unescape r.content
    { post_id := r.post_id
      post_text_cleaned := cleaned
      engagement_score :=
        calculate_engagement_score r.likes r.shares r.comments
      source_type :=
        classify_source_type r.author_username r.content
          get_competitor_keywords
      post_embedding := embed cleaned })

/-- Observable outcome of one pipeline run: the rows upserted into the
silver table and whether the watermark row was advanced. -/
structure PipelineRunResult where
  persisted : List ProcessedRow
  watermark_advanced : Bool
  quality_passed : Bool

/-- `process_bronze_to_silver` (lines 55-205), as a function of the batch
and the opaque collaborators.  An empty batch returns early (nothing
persisted, watermark untouched).  Otherwise the batch is transformed, the
validators are run — their outcome is printed and returned but does not
branch — and every processed row is upserted and the watermark updated
unconditionally. -/
def process_bronze_to_silver (embed : String → List ℚ)
    (unescape : String → String) (bronze_posts : List BronzeRow) :
    PipelineRunResult :=
  match bronze_posts with
  | [] => { persisted := [], watermark_advanced := false,
            quality_passed := true }
  | r :: rs =>
    let processed := processRows embed unescape (r :: rs)
    { persisted := processed
      watermark_advanced := true
      quality_passed := validate_data_quality_passed processed }

theorem dotQ_comm (a b : List ℚ) : dotQ a b = dotQ b a := by
  unfold dotQ
  induction a generalizing b with
  | nil => cases b <;> simp
  | cons x xs ih =>
    cases b with
    | nil => simp
    | cons y ys => simp [List.zipWith, ih ys, mul_comm]

theorem normSq_nonneg (a : List ℚ) : 0 ≤ normSq a := by
  unfold normSq dotQ
  induction a with
  | nil => simp
  | cons x xs ih =>
    simp only [List.zipWith, List.sum_cons]
    have := mul_self_nonneg x
    linarith

theorem normSq_cons (x : ℚ) (xs : List ℚ) :
    normSq (x :: xs) = x * x + normSq xs := by
  simp [normSq, dotQ, List.zipWith]

/-- Cauchy–Schwarz for rational lists, in squared form. -/
theorem dotQ_sq_le (a b : List ℚ) :
    dotQ a b ^ 2 ≤ normSq a * normSq b := by
  induction a generalizing b with
  | nil =>
    simp [dotQ, normSq]
  | cons x xs ih =>
    cases b with
    | nil => simp [dotQ, normSq_nonneg, mul_nonneg, normSq]
    | cons y ys =>
      have hA : 0 ≤ normSq xs := normSq_nonneg xs
      have hB : 0 ≤ normSq ys := normSq_nonneg ys
      have hd : dotQ xs ys ^ 2 ≤ normSq xs * normSq ys := ih ys
      have hstep : dotQ (x :: xs) (y :: ys) = x * y + dotQ xs ys := by
        simp [dotQ, List.zipWith]
      rw [hstep, normSq_cons, normSq_cons]
      set A := normSq xs with hAdef
      set B := normSq ys with hBdef
      set d := dotQ xs ys with hddef
      rcases eq_or_lt_of_le hB with hB0 | hBpos
      · have hd0 : d = 0 := by
          have h1 : d ^ 2 ≤ 0 := by rw [← hB0] at hd; simpa using hd
          have h2 : 0 ≤ d ^ 2 := sq_nonneg d
          have : d ^ 2 = 0 := le_antisymm h1 h2
          exact pow_eq_zero_iff (two_ne_zero) |>.mp this
        rw [hd0, ← hB0]
        have h5 : (x * x + A) * (y * y + 0) - (x * y + 0) ^ 2 = A * y ^ 2 := by
          ring
        nlinarith [mul_nonneg hA (sq_nonneg y)]
      · have h1 : 0 ≤ (x * B - y * d) ^ 2 + y ^ 2 * (A * B - d ^ 2) :=
          add_nonneg (sq_nonneg _)
            (mul_nonneg (sq_nonneg y) (sub_nonneg.2 hd))
        have h2 : (x * B - y * d) ^ 2 + y ^ 2 * (A * B - d ^ 2)
            = B * (x ^ 2 * B + A * y ^ 2 - 2 * x * y * d) := by ring
        have h3 : 0 ≤ B * (x ^ 2 * B + A * y ^ 2 - 2 * x * y * d) := h2 ▸ h1
        have h4 : 0 ≤ x ^ 2 * B + A * y ^ 2 - 2 * x * y * d :=
          (mul_nonneg_iff_of_pos_left hBpos).mp h3
        have h5 : (x * x + A) * (y * y + B) - (x * y + d) ^ 2
            = (x ^ 2 * B + A * y ^ 2 - 2 * x * y * d) + (A * B - d ^ 2) := by
          ring
        linarith [sub_nonneg.2 hd]

/-! ### Properties of the stable descending sort -/

theorem mem_insKeyDesc {α K : Type} [LinearOrder K] (key : α → K) (x z : α)
    (l : List α) : z ∈ insKeyDesc key x l ↔ z = x ∨ z ∈ l := by
  induction l with
  | nil => simp [insKeyDesc]
  | cons y ys ih =>
    simp only [insKeyDesc]
    by_cases hxy : key x < key y
    · rw [if_pos hxy]
      simp only [List.mem_cons, ih]
      tauto
    · rw [if_neg hxy]
      simp only [List.mem_cons]

theorem insKeyDesc_perm {α K : Type} [LinearOrder K] (key : α → K) (x : α)
    (l : List α) : (insKeyDesc key x l).Perm (x :: l) := by
  induction l with
  | nil => simp [insKeyDesc]
  | cons y ys ih =>
    simp only [insKeyDesc]
    by_cases hxy : key x < key y
    · rw [if_pos hxy]
      exact (ih.cons y).trans (List.Perm.swap x y ys)
    · rw [if_neg hxy]

theorem sortKeyDesc_perm {α K : Type} [LinearOrder K] (key : α → K)
    (l : List α) : (sortKeyDesc key l).Perm l := by
  induction l with
  | nil => simp [sortKeyDesc]
  | cons x xs ih =>
    exact (insKeyDesc_perm key x (sortKeyDesc key xs)).trans (ih.cons x)

theorem insKeyDesc_pairwise {α K : Type} [LinearOrder K] (key : α → K)
    (x : α) (l : List α)
    (h : List.Pairwise (fun a b => key b ≤ key a) l) :
    List.Pairwise (fun a b => key b ≤ key a) (insKeyDesc key x l) := by
  induction l with
  | nil => simp [insKeyDesc]
  | cons y ys ih =>
    rcases List.pairwise_cons.mp h with ⟨hy, hys⟩
    simp only [insKeyDesc]
    by_cases hxy : key x < key y
    · rw [if_pos hxy]
      refine List.pairwise_cons.mpr ⟨?_, ih hys⟩
      intro z hz
      rcases (mem_insKeyDesc key x z ys).mp hz with rfl | hz'
      · exact le_of_lt hxy
      · exact hy z hz'
    · rw [if_neg hxy]
      refine List.pairwise_cons.mpr ⟨?_, h⟩
      intro z hz
      rcases List.mem_cons.mp hz with rfl | hz'
      · exact le_of_not_lt hxy
      · exact (hy z hz').trans (le_of_not_lt hxy)

theorem sortKeyDesc_pairwise {α K : Type} [LinearOrder K] (key : α → K)
    (l : List α) :
    List.Pairwise (fun a b => key b ≤ key a) (sortKeyDesc key l) := by
  induction l with
  | nil => simp [sortKeyDesc]
  | cons x xs ih => exact insKeyDesc_pairwise key x _ ih

theorem filterKeyEq_insKeyDesc {α K : Type} [LinearOrder K] (key : α → K)
    (k : K) (x : α) (l : List α) :
    filterKeyEq key k (insKeyDesc key x l) =
      if key x = k then x :: filterKeyEq key k l else filterKeyEq key k l := by
  induction l with
  | nil =>
    by_cases hxk : key x = k <;>
      simp [insKeyDesc, filterKeyEq, List.filter, hxk]
  | cons y ys ih =>
    simp only [insKeyDesc]
    by_cases hxy : key x < key y
    · rw [if_pos hxy]
      by_cases hyk : key y = k
      · have hxk : ¬ key x = k := by
          intro hxk
          rw [hxk, ← hyk] at hxy
          exact lt_irrefl _ hxy
        simp [filterKeyEq, List.filter, hyk, hxk, ih] at *
        simpa [filterKeyEq, hxk] using ih
      · by_cases hxk : key x = k <;>
          simp [filterKeyEq, List.filter, hyk, hxk, ih] at * <;>
          simpa [filterKeyEq, hxk] using ih
    · rw [if_neg hxy]
      by_cases hxk : key x = k <;>
        simp [filterKeyEq, List.filter, hxk]

theorem filterKeyEq_sortKeyDesc {α K : Type} [LinearOrder K] (key : α → K)
    (k : K) (l : List α) :
    filterKeyEq key k (sortKeyDesc key l) = filterKeyEq key k l := by
  induction l with
  | nil => rfl
  | cons x xs ih =>
    rw [sortKeyDesc, filterKeyEq_insKeyDesc, ih]
    by_cases hxk : key x = k <;> simp [filterKeyEq, List.filter, hxk]

/-! ### Properties of the ascending sort and of `percentile` -/

theorem mem_insAsc (x z : ℚ) (l : List ℚ) :
    z ∈ insAsc x l ↔ z = x ∨ z ∈ l := by
  induction l with
  | nil => simp [insAsc]
  | cons y ys ih =>
    simp only [insAsc]
    by_cases hxy : y ≤ x
    · rw [if_pos hxy]
      simp only [List.mem_cons, ih]
      tauto
    · rw [if_neg hxy]
      simp only [List.mem_cons]

theorem insAsc_pairwise (x : ℚ) (l : List ℚ)
    (h : List.Pairwise (fun a b : ℚ => a ≤ b) l) :
    List.Pairwise (fun a b : ℚ => a ≤ b) (insAsc x l) := by
  induction l with
  | nil => simp [insAsc]
  | cons y ys ih =>
    rcases List.pairwise_cons.mp h with ⟨hy, hys⟩
    simp only [insAsc]
    by_cases hxy : y ≤ x
    · rw [if_pos hxy]
      refine List.pairwise_cons.mpr ⟨?_, ih hys⟩
      intro z hz
      rcases (mem_insAsc x z ys).mp hz with rfl | hz'
      · exact hxy
      · exact hy z hz'
    · rw [if_neg hxy]
      refine List.pairwise_cons.mpr ⟨?_, h⟩
      intro z hz
      rcases List.mem_cons.mp hz with rfl | hz'
      · exact le_of_lt (not_le.mp hxy)
      · exact (le_of_lt (not_le.mp hxy)).trans (hy z hz')

theorem sortAsc_pairwise (l : List ℚ) :
    List.Pairwise (fun a b : ℚ => a ≤ b) (sortAsc l) := by
  induction l with
  | nil => simp [sortAsc]
  | cons x xs ih => exact insAsc_pairwise x _ ih

theorem insAsc_length (x : ℚ) (l : List ℚ) :
    (insAsc x l).length = l.length + 1 := by
  induction l with
  | nil => simp [insAsc]
  | cons y ys ih =>
    simp only [insAsc]
    by_cases hxy : y ≤ x
    · rw [if_pos hxy]
      simp [ih]
    · rw [if_neg hxy]
      simp

theorem sortAsc_length (l : List ℚ) : (sortAsc l).length = l.length := by
  induction l with
  | nil => rfl
  | cons x xs ih => simp [sortAsc, insAsc_length, ih]

theorem getD_le_getD_sorted (s : List ℚ)
    (hs : List.Pairwise (fun a b : ℚ => a ≤ b) s) {i j : ℕ} (hij : i ≤ j)
    (hj : j < s.length) : s.getD i 0 ≤ s.getD j 0 := by
  rcases lt_or_eq_of_le hij with hlt | rfl
  · have hi : i < s.length := lt_trans hlt hj
    rw [List.getD_eq_getElem?_getD, List.getD_eq_getElem?_getD,
      List.getElem?_eq_getElem hi, List.getElem?_eq_getElem hj]
    exact List.pairwise_iff_getElem.mp hs i j hi hj hlt
  · exact le_refl _

theorem getD_succ_self_le (s : List ℚ)
    (hs : List.Pairwise (fun a b : ℚ => a ≤ b) s) (i : ℕ)
    (_hi : i < s.length) :
    s.getD i 0 ≤ s.getD (i + 1) (s.getD i 0) := by
  by_cases h : i + 1 < s.length
  · have h2 := getD_le_getD_sorted s hs (Nat.le_succ i) h
    rw [List.getD_eq_getElem?_getD s (i + 1), List.getElem?_eq_getElem h]
    rw [List.getD_eq_getElem?_getD s (i + 1), List.getElem?_eq_getElem h] at h2
    simpa using h2
  · rw [List.getD_eq_getElem?_getD s (i + 1),
      List.getElem?_eq_none (Nat.le_of_not_lt h)]
    exact le_refl _

theorem natFloor_cast_le {h : ℚ} (h0 : 0 ≤ h) :
    ((Int.toNat ⌊h⌋ : ℕ) : ℚ) ≤ h := by
  have h1 : ((⌊h⌋.toNat : ℕ) : ℤ) = ⌊h⌋ :=
    Int.toNat_of_nonneg (Int.floor_nonneg.mpr h0)
  have h2 : (((⌊h⌋.toNat : ℕ) : ℤ) : ℚ) ≤ h := by
    rw [h1]; exact Int.floor_le h
  exact_mod_cast h2

theorem lt_natFloor_add_one {h : ℚ} (h0 : 0 ≤ h) :
    h < ((Int.toNat ⌊h⌋ : ℕ) : ℚ) + 1 := by
  have h1 : ((⌊h⌋.toNat : ℕ) : ℤ) = ⌊h⌋ :=
    Int.toNat_of_nonneg (Int.floor_nonneg.mpr h0)
  have h2 : h < (((⌊h⌋.toNat : ℕ) : ℤ) : ℚ) + 1 := by
    rw [h1]; exact Int.lt_floor_add_one h
  exact_mod_cast h2

theorem interpAt_def (s : List ℚ) (h : ℚ) :
    interpAt s h = s.getD (Int.toNat ⌊h⌋) 0 +
      (h - ((Int.toNat ⌊h⌋ : ℕ) : ℚ)) *
      (s.getD (Int.toNat ⌊h⌋ + 1) (s.getD (Int.toNat ⌊h⌋) 0) -
        s.getD (Int.toNat ⌊h⌋) 0) := rfl

theorem interpAt_mono (s : List ℚ)
    (hs : List.Pairwise (fun a b : ℚ => a ≤ b) s) {h1 h2 : ℚ}
    (h0 : 0 ≤ h1) (h12 : h1 ≤ h2) (hub : h2 ≤ (s.length : ℚ) - 1) :
    interpAt s h1 ≤ interpAt s h2 := by
  have h0' : 0 ≤ h2 := le_trans h0 h12
  set lo1 := Int.toNat ⌊h1⌋ with hlo1
  set lo2 := Int.toNat ⌊h2⌋ with hlo2
  have hcast1 : ((lo1 : ℕ) : ℤ) = ⌊h1⌋ :=
    Int.toNat_of_nonneg (Int.floor_nonneg.mpr h0)
  have hcast2 : ((lo2 : ℕ) : ℤ) = ⌊h2⌋ :=
    Int.toNat_of_nonneg (Int.floor_nonneg.mpr h0')
  have hlole : lo1 ≤ lo2 := by
    have := Int.floor_le_floor h12
    omega
  -- the floor of h2 stays below the length
  have hlo2lt : lo2 < s.length := by
    have hfl : ⌊h2⌋ ≤ (s.length : ℤ) - 1 := by
      have he : ((s.length : ℚ) - 1) = (((s.length : ℤ) - 1 : ℤ) : ℚ) := by
        push_cast
        ring
      have := Int.floor_le_floor hub
      rwa [he, Int.floor_intCast] at this
    omega
  have hlo1lt : lo1 < s.length := lt_of_le_of_lt hlole hlo2lt
  have hf1le : ((lo1 : ℕ) : ℚ) ≤ h1 := natFloor_cast_le h0
  have hf2le : ((lo2 : ℕ) : ℚ) ≤ h2 := natFloor_cast_le h0'
  have hf1lt : h1 < ((lo1 : ℕ) : ℚ) + 1 := lt_natFloor_add_one h0
  have hab1 : s.getD lo1 0 ≤ s.getD (lo1 + 1) (s.getD lo1 0) :=
    getD_succ_self_le s hs lo1 hlo1lt
  have hab2 : s.getD lo2 0 ≤ s.getD (lo2 + 1) (s.getD lo2 0) :=
    getD_succ_self_le s hs lo2 hlo2lt
  rw [interpAt_def, interpAt_def, ← hlo1, ← hlo2]
  rcases Nat.lt_or_ge lo1 lo2 with hlt | hge
  · -- different cells: v1 ≤ b1 ≤ a2 ≤ v2
    have hrange : lo1 + 1 < s.length ∨ lo1 + 1 = s.length := by omega
    have hb1 : s.getD (lo1 + 1) (s.getD lo1 0) ≤ s.getD lo2 0 := by
      have hle : lo1 + 1 ≤ lo2 := hlt
      have h2' := getD_le_getD_sorted s hs hle hlo2lt
      have hin : lo1 + 1 < s.length := lt_of_le_of_lt hle hlo2lt
      rw [List.getD_eq_getElem?_getD s (lo1 + 1),
        List.getElem?_eq_getElem hin]
      rw [List.getD_eq_getElem?_getD s (lo1 + 1),
        List.getElem?_eq_getElem hin] at h2'
      simpa using h2'
    have hv1 : s.getD lo1 0 +
        (h1 - ((lo1 : ℕ) : ℚ)) *
          (s.getD (lo1 + 1) (s.getD lo1 0) - s.getD lo1 0) ≤
        s.getD (lo1 + 1) (s.getD lo1 0) := by
      have hw : h1 - ((lo1 : ℕ) : ℚ) ≤ 1 := by linarith
      nlinarith [sub_nonneg.mpr hab1, sub_nonneg.mpr hf1le]
    have hv2 : s.getD lo2 0 ≤ s.getD lo2 0 +
        (h2 - ((lo2 : ℕ) : ℚ)) *
          (s.getD (lo2 + 1) (s.getD lo2 0) - s.getD lo2 0) := by
      nlinarith [sub_nonneg.mpr hab2, sub_nonneg.mpr hf2le]
    linarith
  · -- same cell
    have heq : lo1 = lo2 := le_antisymm hlole hge
    rw [← heq]
    nlinarith [sub_nonneg.mpr hab1, sub_nonneg.mpr h12]

theorem percentile_mono (xs : List ℚ) (hne : xs ≠ []) {q1 q2 : ℚ}
    (h0 : 0 ≤ q1) (h12 : q1 ≤ q2) (h100 : q2 ≤ 100) :
    percentile xs q1 ≤ percentile xs q2 := by
  rw [percentile, percentile, if_neg hne, if_neg hne]
  have hn : 1 ≤ xs.length := List.length_pos.mpr hne
  have hc : (0 : ℚ) ≤ ((xs.length : ℚ) - 1) / 100 := by
    have h1 : (1 : ℚ) ≤ (xs.length : ℚ) := by exact_mod_cast hn
    have h2 : (0 : ℚ) ≤ (xs.length : ℚ) - 1 := by linarith
    exact div_nonneg h2 (by norm_num)
  apply interpAt_mono (sortAsc xs) (sortAsc_pairwise xs)
  · have : q1 * ((xs.length : ℚ) - 1) / 100 =
        q1 * (((xs.length : ℚ) - 1) / 100) := by ring
    rw [this]
    exact mul_nonneg h0 hc
  · have e1 : q1 * ((xs.length : ℚ) - 1) / 100 =
        q1 * (((xs.length : ℚ) - 1) / 100) := by ring
    have e2 : q2 * ((xs.length : ℚ) - 1) / 100 =
        q2 * (((xs.length : ℚ) - 1) / 100) := by ring
    rw [e1, e2]
    exact mul_le_mul_of_nonneg_right h12 hc
  · rw [sortAsc_length]
    have h1 : (1 : ℚ) ≤ (xs.length : ℚ) := by exact_mod_cast hn
    nlinarith [hc]

/-! ### Cosine similarity: symmetry, range, and the zero-norm case
(claims C3 and C4) -/

theorem cosine_similarity_comm (a b : List ℚ) :
    cosine_similarity a b = cosine_similarity b a := by
  by_cases h : normSq a = 0 ∨ normSq b = 0
  · rw [cosine_similarity, if_pos h, cosine_similarity, if_pos (Or.symm h)]
  · rw [cosine_similarity, if_neg h, cosine_similarity,
      if_neg (fun hc => h (Or.symm hc)), dotQ_comm, mul_comm]

/-- C3, amended: when either input vector has zero norm,
`cosine_similarity` divides zero by zero and produces NaN (modelled as
`none`); the function does not return `0.0` there.  (The claim's guard
clause is in the spec only; the code has no zero-norm branch.) -/
theorem cosine_similarity_zero_norm_nan (a b : List ℚ)
    (h : normSq a = 0 ∨ normSq b = 0) : cosine_similarity a b = none := by
  rw [cosine_similarity, if_pos h]

/-- Witness for `cosine_similarity_zero_norm_nan` at the concrete pair
`[0]`, `[1]`. -/
theorem cosine_similarity_zero_norm_nan_witness :
    (normSq [0] = 0 ∨ normSq [1] = 0) ∧ cosine_similarity [0] [1] = none :=
  ⟨Or.inl (by norm_num [normSq, dotQ]),
    cosine_similarity_zero_norm_nan [0] [1] (Or.inl (by norm_num [normSq, dotQ]))⟩

/-- C3, counterexample: on the zero vector the code yields NaN (`none`),
not the claimed `0.0`. -/
theorem cosine_similarity_zero_not_zero :
    cosine_similarity [0] [1] ≠ some (0 : ℝ) := by
  have h : cosine_similarity [0] [1] = none :=
    cosine_similarity_zero_norm_nan [0] [1] (Or.inl (by norm_num [normSq, dotQ]))
  rw [h]
  exact fun hc => Option.noConfusion hc

/-- C4, amended: `cosine_similarity` is symmetric in its arguments, and
whenever both norms are nonzero the result is a defined real number in
`[-1, 1]`; when either norm is zero the result is NaN (`none`), not `0`. -/
theorem cosine_similarity_symm_range (a b : List ℚ) :
    cosine_similarity a b = cosine_similarity b a ∧
    (normSq a ≠ 0 → normSq b ≠ 0 →
      ∃ r : ℝ, cosine_similarity a b = some r ∧ -1 ≤ r ∧ r ≤ 1) := by
  refine ⟨cosine_similarity_comm a b, fun ha hb => ?_⟩
  have hA0 : (0 : ℚ) < normSq a := (normSq_nonneg a).lt_of_ne (Ne.symm ha)
  have hB0 : (0 : ℚ) < normSq b := (normSq_nonneg b).lt_of_ne (Ne.symm hb)
  have hAR : (0 : ℝ) < ((normSq a : ℚ) : ℝ) := by exact_mod_cast hA0
  have hBR : (0 : ℝ) < ((normSq b : ℚ) : ℝ) := by exact_mod_cast hB0
  have hsA : 0 < Real.sqrt ((normSq a : ℚ) : ℝ) := Real.sqrt_pos.mpr hAR
  have hsB : 0 < Real.sqrt ((normSq b : ℚ) : ℝ) := Real.sqrt_pos.mpr hBR
  have hcs : ((dotQ a b : ℚ) : ℝ) ^ 2 ≤
      ((normSq a : ℚ) : ℝ) * ((normSq b : ℚ) : ℝ) := by
    exact_mod_cast dotQ_sq_le a b
  have habs : |((dotQ a b : ℚ) : ℝ)| ≤
      Real.sqrt ((normSq a : ℚ) : ℝ) * Real.sqrt ((normSq b : ℚ) : ℝ) := by
    have h1 : |((dotQ a b : ℚ) : ℝ)| =
        Real.sqrt (((dotQ a b : ℚ) : ℝ) ^ 2) :=
      (Real.sqrt_sq_eq_abs _).symm
    rw [h1, ← Real.sqrt_mul hAR.le]
    exact Real.sqrt_le_sqrt hcs
  have hdenpos : 0 < Real.sqrt ((normSq a : ℚ) : ℝ) *
      Real.sqrt ((normSq b : ℚ) : ℝ) := mul_pos hsA hsB
  have hdiv : |((dotQ a b : ℚ) : ℝ) /
      (Real.sqrt ((normSq a : ℚ) : ℝ) * Real.sqrt ((normSq b : ℚ) : ℝ))| ≤
      1 := by
    rw [abs_div, abs_of_pos hdenpos, div_le_one hdenpos]
    exact habs
  rcases abs_le.mp hdiv with ⟨hlo, hhi⟩
  refine ⟨_, ?_, hlo, hhi⟩
  rw [cosine_similarity, if_neg (fun hc => hc.elim ha hb)]

/-- Witness for `cosine_similarity_symm_range` at the pair `[1]`, `[1]`. -/
theorem cosine_similarity_symm_range_witness :
    normSq [1] ≠ 0 ∧
      (∃ r : ℝ, cosine_similarity [1] [1] = some r ∧ -1 ≤ r ∧ r ≤ 1) :=
  ⟨by norm_num [normSq, dotQ],
    (cosine_similarity_symm_range [1] [1]).2 (by norm_num [normSq, dotQ])
      (by norm_num [normSq, dotQ])⟩

/-- C4, counterexample: on a zero-norm first argument the result is NaN
(`none`): it is neither a real number in `[-1, 1]` nor the claimed exact
`0.0`. -/
theorem cosine_similarity_zero_norm_not_in_range :
    cosine_similarity [0, 0] [3, 4] = none ∧
      cosine_similarity [0, 0] [3, 4] ≠ some (0 : ℝ) := by
  have h : cosine_similarity [0, 0] [3, 4] = none :=
    cosine_similarity_zero_norm_nan [0, 0] [3, 4]
      (Or.inl (by norm_num [normSq, dotQ]))
  exact ⟨h, by rw [h]; exact fun hc => Option.noConfusion hc⟩

/-! ### Similarity search: filters, ordering, truncation (claim C1) -/

theorem cosine_one_one : cosine_similarity [1] [1] = some 1 := by
  have h1 : dotQ [1] [1] = 1 := by norm_num [dotQ]
  have h2 : normSq [1] = 1 := by norm_num [normSq, dotQ]
  rw [cosine_similarity, if_neg (by norm_num [h2]), h1, h2]
  norm_num

theorem cosine_one_negOne : cosine_similarity [1] [-1] = some (-1) := by
  have h1 : dotQ [1] [-1] = -1 := by norm_num [dotQ]
  have h2 : normSq [1] = 1 := by norm_num [normSq, dotQ]
  have h3 : normSq [-1] = 1 := by norm_num [normSq, dotQ]
  rw [cosine_similarity, if_neg (by norm_num [h2, h3]), h1, h2, h3]
  norm_num

theorem mem_candidateSimilarities (qe : List ℚ) (et : ℚ) (ms : ℝ)
    (posts : List SilverPost) (sp : ℝ × SilverPost)
    (h : sp ∈ candidateSimilarities qe et ms posts) :
    et ≤ sp.2.engagement_score ∧ ms ≤ sp.1 ∧
      cosine_similarity qe sp.2.post_embedding = some sp.1 := by
  induction posts with
  | nil => simp [candidateSimilarities] at h
  | cons p ps ih =>
    simp only [candidateSimilarities] at h
    by_cases h1 : p.engagement_score < et
    · rw [if_pos h1] at h
      exact ih h
    · rw [if_neg h1] at h
      rcases hc : cosine_similarity qe p.post_embedding with _ | s
      · rw [hc] at h
        exact ih h
      · rw [hc] at h
        dsimp only at h
        by_cases h2 : ms ≤ s
        · rw [if_pos h2] at h
          rcases List.mem_cons.mp h with rfl | h3
          · exact ⟨not_lt.mp h1, h2, hc⟩
          · exact ih h3
        · rw [if_neg h2] at h
          exact ih h

/-- C1, amended: every returned result passes both filters
(`engagement_score ≥ engagement_threshold` and
`similarity ≥ min_similarity`), the result sequence is ordered by
similarity descending, its length is at most `top_k`, and equal
similarities keep the candidate (input) order — the stable-sort
stability property — rather than being re-ordered by `created_at`. -/
theorem find_similar_posts_spec (query_embedding : List ℚ)
    (posts : List SilverPost) (top_k : ℕ) (min_similarity : ℝ)
    (engagement_threshold : ℚ) :
    (∀ r ∈ find_similar_posts query_embedding posts top_k min_similarity
        engagement_threshold,
      engagement_threshold ≤ r.engagement_score ∧
        min_similarity ≤ r.similarity_score) ∧
    List.Pairwise
      (fun a b : SimilarityResult =>
        b.similarity_score ≤ a.similarity_score)
      (find_similar_posts query_embedding posts top_k min_similarity
        engagement_threshold) ∧
    (find_similar_posts query_embedding posts top_k min_similarity
        engagement_threshold).length ≤ top_k ∧
    (∀ k : ℝ, filterKeyEq Prod.fst k (sortKeyDesc Prod.fst
        (candidateSimilarities query_embedding engagement_threshold
          min_similarity posts)) =
      filterKeyEq Prod.fst k (candidateSimilarities query_embedding
        engagement_threshold min_similarity posts)) := by
  refine ⟨?_, ?_, ?_, ?_⟩
  · intro r hr
    rw [find_similar_posts] at hr
    rcases List.mem_map.mp hr with ⟨sp, hsp, rfl⟩
    have hsp2 : sp ∈ sortKeyDesc Prod.fst
        (candidateSimilarities query_embedding engagement_threshold
          min_similarity posts) :=
      List.mem_of_mem_take hsp
    have hsp3 : sp ∈ candidateSimilarities query_embedding
        engagement_threshold min_similarity posts :=
      (sortKeyDesc_perm Prod.fst _).mem_iff.mp hsp2
    have := mem_candidateSimilarities query_embedding engagement_threshold
      min_similarity posts sp hsp3
    exact ⟨this.1, this.2.1⟩
  · rw [find_similar_posts]
    apply List.pairwise_map.mpr
    have hsorted := sortKeyDesc_pairwise Prod.fst
      (candidateSimilarities query_embedding engagement_threshold
        min_similarity posts)
    exact List.Pairwise.sublist (List.take_sublist _ _) hsorted
  · rw [find_similar_posts]
    rw [List.length_map]
    exact List.length_take_le _ _
  · intro k
    exact filterKeyEq_sortKeyDesc Prod.fst k _

/-- Witness for `find_similar_posts_spec`: a concrete one-post search whose
single result satisfies both filters. -/
theorem find_similar_posts_spec_witness :
    (0 : ℚ) ≤ (SimilarityResult.mk ("w") ("t") 1 0 SourceType.customer
        0).engagement_score ∧
    (0 : ℝ) ≤ (SimilarityResult.mk ("w") ("t") 1 0 SourceType.customer
        0).similarity_score :=
  (find_similar_posts_spec [1]
    [⟨("w"), ("t"), 0, [1], SourceType.customer, 0⟩] 10 0 0).1
    (SimilarityResult.mk ("w") ("t") 1 0 SourceType.customer 0)
    (by
      norm_num [find_similar_posts, candidateSimilarities, cosine_one_one,
        sortKeyDesc, insKeyDesc])

/-- C1, counterexample: two posts with equal similarity 1 but increasing
`created_at` come back in input order (`created_at` ascending), so the
ordering is not "ties broken by `created_at` descending". -/
theorem find_similar_posts_no_created_at_tiebreak :
    find_similar_posts [1]
        [⟨("p1"), ("x"), 0, [1], SourceType.customer, 0⟩,
          ⟨("p2"), ("y"), 0, [1], SourceType.customer, 1⟩] 10 0 0 =
      [⟨("p1"), ("x"), 1, 0, SourceType.customer, 0⟩,
        ⟨("p2"), ("y"), 1, 0, SourceType.customer, 1⟩] ∧
    ¬ List.Pairwise
      (fun a b : SimilarityResult =>
        b.similarity_score < a.similarity_score ∨
          (a.similarity_score = b.similarity_score ∧
            b.created_at ≤ a.created_at))
      (find_similar_posts [1]
        [⟨("p1"), ("x"), 0, [1], SourceType.customer, 0⟩,
          ⟨("p2"), ("y"), 0, [1], SourceType.customer, 1⟩] 10 0 0) := by
  have heval : find_similar_posts [1]
      [⟨("p1"), ("x"), 0, [1], SourceType.customer, 0⟩,
        ⟨("p2"), ("y"), 0, [1], SourceType.customer, 1⟩] 10 0 0 =
      [⟨("p1"), ("x"), 1, 0, SourceType.customer, 0⟩,
        ⟨("p2"), ("y"), 1, 0, SourceType.customer, 1⟩] := by
    norm_num [find_similar_posts, candidateSimilarities, cosine_one_one,
      sortKeyDesc, insKeyDesc]
  refine ⟨heval, ?_⟩
  rw [heval]
  intro hpw
  have h12 := List.pairwise_cons.mp hpw
  have := h12.1 _ (List.mem_cons_self _ _)
  rcases this with hlt | ⟨_, hle⟩
  · exact absurd hlt (by norm_num)
  · exact absurd hle (by norm_num)

/-! ### Insight generation: empty case, thresholds, buckets
(claims C2, C5, C6) -/

/-- C5, amended: on an empty input the silver insight generator returns the
bundle with all three sequences empty and a metrics dict holding exactly
`avg_engagement = 0.0` and `max_engagement = 0.0`; the two threshold
metrics are not present in that dict. -/
theorem generate_marketing_insights_empty (query_embedding : List ℚ)
    (query : String) (top_k : ℕ) (similarity_threshold : ℝ) :
    generate_marketing_insights query_embedding query [] top_k
        similarity_threshold =
      { high_value_content := []
        content_gaps := []
        top_performing_topics := []
        engagement_metrics :=
          [(("avg_engagement"), 0), (("max_engagement"), 0)] } := rfl

/-- C5, counterexample: the metrics dict returned for an empty input has no
`high_engagement_threshold` and no `low_engagement_threshold` key, so not
all four metrics are present. -/
theorem insights_empty_metrics_missing_thresholds :
    List.lookup ("high_engagement_threshold")
        (generate_marketing_insights [] ("") [] 10 0).engagement_metrics =
      none ∧
    List.lookup ("low_engagement_threshold")
        (generate_marketing_insights [] ("") [] 10 0).engagement_metrics =
      none := by
  exact ⟨rfl, rfl⟩

/-- C2, amended: for a non-empty input the high/low engagement thresholds
recorded in the metrics (the ones the categorization uses) are the 75th and
25th percentiles — linear interpolation at `p/100 * (n-1)` — of the
engagement scores of the **entire pre-filter `posts` input**, not of the
filtered similar-posts sequence that is being partitioned. -/
theorem insights_thresholds_from_pre_filter_posts (query_embedding : List ℚ)
    (query : String) (posts : List SilverPost) (top_k : ℕ)
    (similarity_threshold : ℝ) (h : posts ≠ []) :
    List.lookup ("high_engagement_threshold")
        (generate_marketing_insights query_embedding query posts top_k
          similarity_threshold).engagement_metrics =
      some (percentile (posts.map (fun p => p.engagement_score)) 75) ∧
    List.lookup ("low_engagement_threshold")
        (generate_marketing_insights query_embedding query posts top_k
          similarity_threshold).engagement_metrics =
      some (percentile (posts.map (fun p => p.engagement_score)) 25) := by
  cases posts with
  | nil => exact absurd rfl h
  | cons p ps => exact ⟨rfl, rfl⟩

/-- Witness for `insights_thresholds_from_pre_filter_posts` on a one-post
input. -/
theorem insights_thresholds_from_pre_filter_posts_witness :
    (([⟨("w"), (""), 1, [1], SourceType.customer, 0⟩] : List SilverPost) ≠
      []) ∧
    List.lookup ("high_engagement_threshold")
        (generate_marketing_insights [1] ("")
          [⟨("w"), (""), 1, [1], SourceType.customer, 0⟩] 10
          0).engagement_metrics =
      some (percentile
        (([⟨("w"), (""), 1, [1], SourceType.customer, 0⟩] :
          List SilverPost).map (fun p => p.engagement_score)) 75) :=
  ⟨by simp,
    (insights_thresholds_from_pre_filter_posts [1] ("")
      [⟨("w"), (""), 1, [1], SourceType.customer, 0⟩] 10 0 (by simp)).1⟩

/-- C2, counterexample: with posts of engagement 0/10/20/30 where the
engagement-0 post is filtered out by similarity, the threshold actually
used is `percentile([0,10,20,30], 75) = 22.5`, while the 75th percentile
of the partitioned (post-filter) sequence `[10,20,30]` is `25`. -/
theorem insights_thresholds_not_from_result_set :
    List.lookup ("high_engagement_threshold")
        (generate_marketing_insights [1] ("")
          [⟨("a"), (""), 0, [-1], SourceType.customer, 0⟩,
            ⟨("b"), (""), 10, [1], SourceType.customer, 0⟩,
            ⟨("c"), (""), 20, [1], SourceType.customer, 0⟩,
            ⟨("d"), (""), 30, [1], SourceType.customer, 0⟩] 5
          0).engagement_metrics =
      some (45 / 2) ∧
    percentile ((find_similar_posts [1]
        [⟨("a"), (""), 0, [-1], SourceType.customer, 0⟩,
          ⟨("b"), (""), 10, [1], SourceType.customer, 0⟩,
          ⟨("c"), (""), 20, [1], SourceType.customer, 0⟩,
          ⟨("d"), (""), 30, [1], SourceType.customer, 0⟩] 10 0 0).map
        (fun r => r.engagement_score)) 75 = 25 ∧
    (45 / 2 : ℚ) ≠ 25 := by
  refine ⟨?_, ?_, by norm_num⟩
  · have h0 : List.lookup ("high_engagement_threshold")
        (generate_marketing_insights [1] ("")
          [⟨("a"), (""), 0, [-1], SourceType.customer, 0⟩,
            ⟨("b"), (""), 10, [1], SourceType.customer, 0⟩,
            ⟨("c"), (""), 20, [1], SourceType.customer, 0⟩,
            ⟨("d"), (""), 30, [1], SourceType.customer, 0⟩] 5
          0).engagement_metrics =
        some (percentile [0, 10, 20, 30] 75) := rfl
    rw [h0]
    have h1 : percentile [0, 10, 20, 30] 75 = 45 / 2 := by
      norm_num [percentile, sortAsc, insAsc, interpAt,
        show Int.toNat 2 = 2 from rfl, List.cons_ne_nil, List.getD]
    rw [h1]
  · have heval : find_similar_posts [1]
        [⟨("a"), (""), 0, [-1], SourceType.customer, 0⟩,
          ⟨("b"), (""), 10, [1], SourceType.customer, 0⟩,
          ⟨("c"), (""), 20, [1], SourceType.customer, 0⟩,
          ⟨("d"), (""), 30, [1], SourceType.customer, 0⟩] 10 0 0 =
        [⟨("b"), (""), 1, 10, SourceType.customer, 0⟩,
          ⟨("c"), (""), 1, 20, SourceType.customer, 0⟩,
          ⟨("d"), (""), 1, 30, SourceType.customer, 0⟩] := by
      norm_num [find_similar_posts, candidateSimilarities, cosine_one_one,
        cosine_one_negOne, sortKeyDesc, insKeyDesc]
    rw [heval]
    norm_num [percentile, sortAsc, insAsc, interpAt,
      show Int.toNat 1 = 1 from rfl, List.cons_ne_nil, List.getD]

theorem categorize_high_mem (query : String) (thrHigh thrLow : ℚ)
    (rs : List SimilarityResult) (g : GoldInsight)
    (hg : g ∈ (categorize query thrHigh thrLow rs).1) :
    thrHigh ≤ g.engagement_score := by
  induction rs with
  | nil => simp [categorize] at hg
  | cons r rest ih =>
    simp only [categorize] at hg
    by_cases hH : thrHigh ≤ r.engagement_score
    · rw [if_pos hH] at hg
      rcases List.mem_cons.mp hg with rfl | hg'
      · exact hH
      · exact ih hg'
    · rw [if_neg hH] at hg
      by_cases hL : r.engagement_score ≤ thrLow
      · rw [if_pos hL] at hg
        exact ih hg
      · rw [if_neg hL] at hg
        exact ih hg

theorem categorize_gaps_mem (query : String) (thrHigh thrLow : ℚ)
    (rs : List SimilarityResult) (g : GoldInsight)
    (hg : g ∈ (categorize query thrHigh thrLow rs).2) :
    g.engagement_score ≤ thrLow ∧ ¬ thrHigh ≤ g.engagement_score := by
  induction rs with
  | nil => simp [categorize] at hg
  | cons r rest ih =>
    simp only [categorize] at hg
    by_cases hH : thrHigh ≤ r.engagement_score
    · rw [if_pos hH] at hg
      exact ih hg
    · rw [if_neg hH] at hg
      by_cases hL : r.engagement_score ≤ thrLow
      · rw [if_pos hL] at hg
        rcases List.mem_cons.mp hg with rfl | hg'
        · exact ⟨hL, hH⟩
        · exact ih hg'
      · rw [if_neg hL] at hg
        exact ih hg

/-- C6: for every non-empty input, the high threshold is at least the low
threshold, the two buckets are disjoint, and a result satisfying both
bucket conditions lands in `high_value` only (nothing in `content_gaps`
meets the high-value condition). -/
theorem insights_buckets_invariant (query_embedding : List ℚ)
    (query : String) (posts : List SilverPost) (top_k : ℕ)
    (similarity_threshold : ℝ) (h : posts ≠ []) :
    percentile (posts.map (fun p => p.engagement_score)) 25 ≤
      percentile (posts.map (fun p => p.engagement_score)) 75 ∧
    (∀ g, g ∈ (generate_marketing_insights query_embedding query posts top_k
        similarity_threshold).high_value_content →
      g ∈ (generate_marketing_insights query_embedding query posts top_k
        similarity_threshold).content_gaps → False) ∧
    (∀ g, g ∈ (generate_marketing_insights query_embedding query posts top_k
        similarity_threshold).content_gaps →
      ¬ percentile (posts.map (fun p => p.engagement_score)) 75 ≤
        g.engagement_score) := by
  cases posts with
  | nil => exact absurd rfl h
  | cons p ps =>
    have hmapne : (p :: ps).map (fun q => q.engagement_score) ≠ [] := by
      simp
    refine ⟨percentile_mono _ hmapne (by norm_num) (by norm_num)
      (by norm_num), ?_, ?_⟩
    · intro g hg1 hg2
      have hhv : (generate_marketing_insights query_embedding query (p :: ps)
          top_k similarity_threshold).high_value_content =
          (categorize query
            (percentile ((p :: ps).map (fun q => q.engagement_score)) 75)
            (percentile ((p :: ps).map (fun q => q.engagement_score)) 25)
            (find_similar_posts query_embedding (p :: ps) (top_k * 2)
              similarity_threshold 0)).1.take top_k := rfl
      have hcg : (generate_marketing_insights query_embedding query (p :: ps)
          top_k similarity_threshold).content_gaps =
          (categorize query
            (percentile ((p :: ps).map (fun q => q.engagement_score)) 75)
            (percentile ((p :: ps).map (fun q => q.engagement_score)) 25)
            (find_similar_posts query_embedding (p :: ps) (top_k * 2)
              similarity_threshold 0)).2.take top_k := rfl
      rw [hhv] at hg1
      rw [hcg] at hg2
      have h1 := categorize_high_mem _ _ _ _ g (List.mem_of_mem_take hg1)
      have h2 := categorize_gaps_mem _ _ _ _ g (List.mem_of_mem_take hg2)
      exact h2.2 h1
    · intro g hg
      have hcg : (generate_marketing_insights query_embedding query (p :: ps)
          top_k similarity_threshold).content_gaps =
          (categorize query
            (percentile ((p :: ps).map (fun q => q.engagement_score)) 75)
            (percentile ((p :: ps).map (fun q => q.engagement_score)) 25)
            (find_similar_posts query_embedding (p :: ps) (top_k * 2)
              similarity_threshold 0)).2.take top_k := rfl
      rw [hcg] at hg
      exact (categorize_gaps_mem _ _ _ _ g (List.mem_of_mem_take hg)).2

/-- Witness for `insights_buckets_invariant` on a one-post input. -/
theorem insights_buckets_invariant_witness :
    percentile (([⟨("w"), (""), 1, [1], SourceType.customer, 0⟩] :
        List SilverPost).map (fun p => p.engagement_score)) 25 ≤
    percentile (([⟨("w"), (""), 1, [1], SourceType.customer, 0⟩] :
        List SilverPost).map (fun p => p.engagement_score)) 75 :=
  (insights_buckets_invariant [1] ("")
    [⟨("w"), (""), 1, [1], SourceType.customer, 0⟩] 10 0 (by simp)).1

/-! ### Topic extraction: helper lemmas and the full specification
(claim C7) -/

theorem bump_mem_key (v : String) (acc : List (String × ℕ))
    (w : String) (c : ℕ) (h : (w, c) ∈ bump v acc) :
    w = v ∨ ∃ c0, (w, c0) ∈ acc := by
  induction acc with
  | nil =>
    simp only [bump, List.mem_singleton] at h
    exact Or.inl (congrArg Prod.fst h)
  | cons kc rest ih =>
    rcases kc with ⟨k, c0⟩
    simp only [bump] at h
    by_cases hk : k = v
    · rw [if_pos hk] at h
      rcases List.mem_cons.mp h with heq | hmem
      · exact Or.inl ((congrArg Prod.fst heq).trans hk)
      · exact Or.inr ⟨c, List.mem_cons_of_mem _ hmem⟩
    · rw [if_neg hk] at h
      rcases List.mem_cons.mp h with heq | hmem
      · have hw : w = k := congrArg Prod.fst heq
        subst hw
        exact Or.inr ⟨c0, List.mem_cons_self _ _⟩
      · rcases ih hmem with h1 | ⟨c1, h1⟩
        · exact Or.inl h1
        · exact Or.inr ⟨c1, List.mem_cons_of_mem _ h1⟩

theorem bump_pos (v : String) (acc : List (String × ℕ))
    (hacc : ∀ p ∈ acc, 0 < p.2) : ∀ p ∈ bump v acc, 0 < p.2 := by
  induction acc with
  | nil =>
    intro p hp
    simp only [bump, List.mem_singleton] at hp
    rw [hp]
    exact Nat.zero_lt_one
  | cons kc rest ih =>
    rcases kc with ⟨k, c0⟩
    intro p hp
    simp only [bump] at hp
    by_cases hk : k = v
    · rw [if_pos hk] at hp
      rcases List.mem_cons.mp hp with heq | hmem
      · rw [heq]
        exact Nat.succ_pos c0
      · exact hacc p (List.mem_cons_of_mem _ hmem)
    · rw [if_neg hk] at hp
      rcases List.mem_cons.mp hp with heq | hmem
      · rw [heq]
        exact hacc (k, c0) (List.mem_cons_self _ _)
      · exact ih (fun q hq => hacc q (List.mem_cons_of_mem _ hq)) p hmem

theorem foldl_bump_key_mem (ws : List String) :
    ∀ (acc : List (String × ℕ)) (w : String) (c : ℕ),
      (w, c) ∈ ws.foldl (fun a v => bump v a) acc →
      (∃ c0, (w, c0) ∈ acc) ∨ w ∈ ws := by
  induction ws with
  | nil =>
    intro acc w c h
    exact Or.inl ⟨c, h⟩
  | cons v vs ih =>
    intro acc w c h
    rw [List.foldl_cons] at h
    rcases ih (bump v acc) w c h with ⟨c0, h0⟩ | h0
    · rcases bump_mem_key v acc w c0 h0 with rfl | ⟨c1, h1⟩
      · exact Or.inr (List.mem_cons_self _ _)
      · exact Or.inl ⟨c1, h1⟩
    · exact Or.inr (List.mem_cons_of_mem _ h0)

theorem foldl_bump_pos (ws : List String) :
    ∀ (acc : List (String × ℕ)), (∀ p ∈ acc, 0 < p.2) →
      ∀ p ∈ ws.foldl (fun a v => bump v a) acc, 0 < p.2 := by
  induction ws with
  | nil => exact fun acc hacc => hacc
  | cons v vs ih =>
    intro acc hacc p hp
    rw [List.foldl_cons] at hp
    exact ih (bump v acc) (bump_pos v acc hacc) p hp

theorem countWords_key_mem (ws : List String) (w : String) (c : ℕ)
    (h : (w, c) ∈ countWords ws) : w ∈ ws := by
  rcases foldl_bump_key_mem ws [] w c h with ⟨c0, h0⟩ | h0
  · simp at h0
  · exact h0

theorem countWords_pos (ws : List String) (p : String × ℕ)
    (h : p ∈ countWords ws) : 0 < p.2 :=
  foldl_bump_pos ws [] (by simp) p h

theorem mem_tokensMin (n : ℕ) (t : String) (w : String)
    (h : w ∈ tokensMin n t) : n ≤ w.length := by
  rw [tokensMin] at h
  rcases List.mem_map.mp h with ⟨r, hr, rfl⟩
  have := List.mem_filter.mp hr
  have hlen : n ≤ r.length := by simpa using this.2
  simpa [String.length] using hlen

theorem mem_gold_surviving (texts : List String) (w : String)
    (hw : w ∈ gold_surviving_tokens texts) :
    4 ≤ w.length ∧ gold_stopwords.contains w = false ∧
      isDigitTok w = false := by
  rw [gold_surviving_tokens] at hw
  rcases List.mem_flatten.mp hw with ⟨l, hl, hwl⟩
  rcases List.mem_map.mp hl with ⟨t, _, rfl⟩
  have hflt := List.mem_filter.mp hwl
  have hcond := hflt.2
  rw [Bool.and_eq_true, Bool.not_eq_true', Bool.not_eq_true'] at hcond
  exact ⟨mem_tokensMin 4 t w hflt.1, hcond.1, hcond.2⟩

theorem bump_keys (v : String) (acc : List (String × ℕ)) :
    (bump v acc).map Prod.fst =
      if v ∈ acc.map Prod.fst then acc.map Prod.fst
      else acc.map Prod.fst ++ [v] := by
  induction acc with
  | nil => simp [bump]
  | cons kc rest ih =>
    rcases kc with ⟨k, c0⟩
    simp only [bump]
    by_cases hk : k = v
    · rw [if_pos hk]
      have hv : v ∈ ((k, c0) :: rest).map Prod.fst := by
        simp [hk.symm]
      rw [if_pos hv]
      simp
    · rw [if_neg hk]
      by_cases hmem : v ∈ rest.map Prod.fst
      · have hv : v ∈ ((k, c0) :: rest).map Prod.fst := by
          simp [hmem]
        rw [if_pos hv]
        simp only [List.map_cons]
        rw [ih, if_pos hmem]
      · have hv : ¬ v ∈ ((k, c0) :: rest).map Prod.fst := by
          simp only [List.map_cons, List.mem_cons]
          push_neg
          exact ⟨fun he => hk he.symm, hmem⟩
        rw [if_neg hv]
        simp only [List.map_cons]
        rw [ih, if_neg hmem]
        simp

theorem firstOccurAux_congr (ws : List String) :
    ∀ (s1 s2 : List String), (∀ x, x ∈ s1 ↔ x ∈ s2) →
      firstOccurAux s1 ws = firstOccurAux s2 ws := by
  induction ws with
  | nil => intro s1 s2 _; rfl
  | cons w vs ih =>
    intro s1 s2 hiff
    simp only [firstOccurAux]
    by_cases hw : w ∈ s1
    · rw [if_pos hw, if_pos ((hiff w).mp hw)]
      exact ih s1 s2 hiff
    · rw [if_neg hw, if_neg (fun hc => hw ((hiff w).mpr hc))]
      rw [ih (w :: s1) (w :: s2) (by intro x; simp [hiff x])]

theorem foldl_bump_keys (ws : List String) :
    ∀ (acc : List (String × ℕ)),
      (ws.foldl (fun a v => bump v a) acc).map Prod.fst =
        acc.map Prod.fst ++ firstOccurAux (acc.map Prod.fst) ws := by
  induction ws with
  | nil => intro acc; simp [firstOccurAux]
  | cons v vs ih =>
    intro acc
    rw [List.foldl_cons, ih (bump v acc), bump_keys]
    simp only [firstOccurAux]
    by_cases hv : v ∈ acc.map Prod.fst
    · rw [if_pos hv, if_pos hv]
    · rw [if_neg hv, if_neg hv, List.append_assoc]
      congr 1
      have hiff : ∀ x, x ∈ acc.map Prod.fst ++ [v] ↔
          x ∈ v :: acc.map Prod.fst := by
        intro x
        simp [List.mem_append, or_comm]
      rw [firstOccurAux_congr vs _ _ hiff]
      simp

theorem countWords_keys (ws : List String) :
    (countWords ws).map Prod.fst = firstOccur ws := by
  rw [countWords, foldl_bump_keys ws [], firstOccur]
  simp

theorem gold_max_count_pos (texts : List String) :
    0 < gold_max_count texts := by
  rw [gold_max_count]
  split
  · exact Nat.zero_lt_one
  · rename_i p rest hs
    have hp : p ∈ countWords (gold_surviving_tokens texts) :=
      (sortKeyDesc_perm Prod.snd _).mem_iff.mp
        (hs ▸ List.mem_cons_self p rest)
    exact countWords_pos _ p hp

/-- C7: the gold topic extractor tokenizes each lowercased text into word
runs of length at least 4, drops stopwords and purely numeric tokens,
counts frequencies over the whole input (keys in first-encounter order),
reports at most `top_n = 5` topics scored `count / max_count` (so the most
frequent reported token scores 1), in frequency-descending order, every
unreported surviving token having frequency at most that of each reported
one, ties keeping first-encounter order, and returns the empty list when
no token survives. -/
theorem gold_topic_extraction_spec (texts : List String) :
    (gold_surviving_tokens texts = [] →
      gold_extract_top_topics texts 5 = []) ∧
    (gold_extract_top_topics texts 5).length ≤ 5 ∧
    (∀ pr ∈ gold_extract_top_topics texts 5, ∃ c : ℕ,
      (pr.1, c) ∈ countWords (gold_surviving_tokens texts) ∧ 0 < c ∧
      pr.2 = (c : ℚ) / (gold_max_count texts : ℚ) ∧
      4 ≤ pr.1.length ∧ gold_stopwords.contains pr.1 = false ∧
      isDigitTok pr.1 = false) ∧
    (∀ q ∈ countWords (gold_surviving_tokens texts),
      q.2 ≤ gold_max_count texts) ∧
    (∀ pr : String × ℚ, (gold_extract_top_topics texts 5).head? = some pr →
      pr.2 = 1) ∧
    List.Pairwise (fun a b : String × ℚ => b.2 ≤ a.2)
      (gold_extract_top_topics texts 5) ∧
    (∀ q ∈ countWords (gold_surviving_tokens texts),
      q ∉ (sortKeyDesc Prod.snd
        (countWords (gold_surviving_tokens texts))).take 5 →
      ∀ p ∈ (sortKeyDesc Prod.snd
        (countWords (gold_surviving_tokens texts))).take 5, q.2 ≤ p.2) ∧
    (∀ c : ℕ, filterKeyEq Prod.snd c (sortKeyDesc Prod.snd
        (countWords (gold_surviving_tokens texts))) =
      filterKeyEq Prod.snd c (countWords (gold_surviving_tokens texts))) ∧
    (countWords (gold_surviving_tokens texts)).map Prod.fst =
      firstOccur (gold_surviving_tokens texts) := by
  refine ⟨?_, ?_, ?_, ?_, ?_, ?_, ?_, ?_, ?_⟩
  · intro h
    rw [gold_extract_top_topics, h]
    simp [countWords, sortKeyDesc]
  · rw [gold_extract_top_topics, List.length_map]
    exact List.length_take_le _ _
  · intro pr hpr
    rw [gold_extract_top_topics] at hpr
    rcases List.mem_map.mp hpr with ⟨sp, hsp, rfl⟩
    have hsmem : sp ∈ sortKeyDesc Prod.snd
        (countWords (gold_surviving_tokens texts)) :=
      List.mem_of_mem_take hsp
    have hwc : sp ∈ countWords (gold_surviving_tokens texts) :=
      (sortKeyDesc_perm Prod.snd _).mem_iff.mp hsmem
    have hks : sp.1 ∈ gold_surviving_tokens texts :=
      countWords_key_mem _ sp.1 sp.2 hwc
    rcases mem_gold_surviving texts sp.1 hks with ⟨h4, hsw, hdig⟩
    exact ⟨sp.2, hwc, countWords_pos _ sp hwc, rfl, h4, hsw, hdig⟩
  · intro q hq
    have hq' : q ∈ sortKeyDesc Prod.snd
        (countWords (gold_surviving_tokens texts)) :=
      (sortKeyDesc_perm Prod.snd _).mem_iff.mpr hq
    rw [gold_max_count]
    split
    · rename_i hs
      rw [hs] at hq'
      simp at hq'
    · rename_i p rest hs
      rw [hs] at hq'
      have hpw := sortKeyDesc_pairwise Prod.snd
        (countWords (gold_surviving_tokens texts))
      rw [hs] at hpw
      rcases List.mem_cons.mp hq' with rfl | hmem
      · exact le_refl _
      · exact (List.pairwise_cons.mp hpw).1 q hmem
  · intro pr hpr
    rw [gold_extract_top_topics] at hpr
    rcases hs : sortKeyDesc Prod.snd
        (countWords (gold_surviving_tokens texts)) with _ | ⟨p, rest⟩
    · rw [hs] at hpr
      simp at hpr
    · rw [hs] at hpr
      have htake : (p :: rest).take 5 = p :: rest.take 4 := rfl
      rw [htake, List.map_cons, List.head?_cons, Option.some.injEq] at hpr
      have hmc : gold_max_count texts = p.2 := by
        rw [gold_max_count, hs]
      have hpos : 0 < p.2 :=
        countWords_pos _ p ((sortKeyDesc_perm Prod.snd _).mem_iff.mp
          (hs ▸ List.mem_cons_self p rest))
      rw [← hpr, hmc]
      exact div_self (by exact_mod_cast hpos.ne')
  · rw [gold_extract_top_topics]
    apply List.pairwise_map.mpr
    have hpw := List.Pairwise.sublist (List.take_sublist 5 _)
      (sortKeyDesc_pairwise Prod.snd
        (countWords (gold_surviving_tokens texts)))
    refine hpw.imp ?_
    intro a b hab
    have hmc : (0 : ℚ) < (gold_max_count texts : ℚ) := by
      exact_mod_cast gold_max_count_pos texts
    exact (div_le_div_iff_of_pos_right hmc).mpr (by exact_mod_cast hab)
  · intro q hq hnot p hp
    have hsplit := List.take_append_drop 5 (sortKeyDesc Prod.snd
      (countWords (gold_surviving_tokens texts)))
    have hq' : q ∈ sortKeyDesc Prod.snd
        (countWords (gold_surviving_tokens texts)) :=
      (sortKeyDesc_perm Prod.snd _).mem_iff.mpr hq
    rw [← hsplit] at hq'
    rcases List.mem_append.mp hq' with h1 | h2
    · exact absurd h1 hnot
    · have hpw := sortKeyDesc_pairwise Prod.snd
        (countWords (gold_surviving_tokens texts))
      rw [← hsplit] at hpw
      exact (List.pairwise_append.mp hpw).2.2 p hp q h2
  · intro c
    exact filterKeyEq_sortKeyDesc Prod.snd c _
  · exact countWords_keys _

/-- Witness for `gold_topic_extraction_spec`: the empty input has no
surviving tokens and yields the empty topic list. -/
theorem gold_topic_extraction_spec_witness :
    gold_surviving_tokens [] = [] ∧ gold_extract_top_topics [] 5 = [] :=
  ⟨rfl, (gold_topic_extraction_spec []).1 rfl⟩

/-! ### Source classification (claim C8) -/

/-- C8, amended: `classify_source_type` returns `Competitor` precisely when
a competitor keyword (or `official` + keyword) occurs **in the author
handle** (the content is not consulted for the competitor check); failing
that, `Reviewer` precisely when a reviewer indicator occurs in the content;
otherwise `Customer` — and the result is always one of these three. -/
theorem classify_source_type_spec (author content : String)
    (company_keywords : List String) :
    (classify_source_type author content company_keywords = ("Competitor") ↔
      ∃ company ∈ company_keywords,
        strIn (pyLower company) (pyLower author) = true ∨
        strIn (String.append ("official") (pyLower company)) (pyLower author) =
          true) ∧
    (classify_source_type author content company_keywords = ("Reviewer") ↔
      ¬ (∃ company ∈ company_keywords,
        strIn (pyLower company) (pyLower author) = true ∨
        strIn (String.append ("official") (pyLower company)) (pyLower author) =
          true) ∧
      ∃ ind ∈ reviewer_indicators, strIn ind (pyLower content) = true) ∧
    (classify_source_type author content company_keywords = ("Customer") ↔
      ¬ (∃ company ∈ company_keywords,
        strIn (pyLower company) (pyLower author) = true ∨
        strIn (String.append ("official") (pyLower company)) (pyLower author) =
          true) ∧
      ¬ ∃ ind ∈ reviewer_indicators, strIn ind (pyLower content) = true) ∧
    (classify_source_type author content company_keywords = ("Competitor") ∨
      classify_source_type author content company_keywords = ("Reviewer") ∨
      classify_source_type author content company_keywords = ("Customer")) := by
  rw [classify_source_type]
  by_cases hcomp : company_keywords.any (fun company =>
      strIn (pyLower company) (pyLower author) ||
      strIn (String.append ("official") (pyLower company)) (pyLower author))
  · rw [if_pos hcomp]
    have hex : ∃ company ∈ company_keywords,
        strIn (pyLower company) (pyLower author) = true ∨
        strIn (String.append ("official") (pyLower company)) (pyLower author) =
          true := by
      rcases List.any_eq_true.mp hcomp with ⟨company, hc1, hc2⟩
      exact ⟨company, hc1, Bool.or_eq_true _ _ |>.mp hc2⟩
    refine ⟨⟨fun _ => hex, fun _ => rfl⟩, ?_, ?_, Or.inl rfl⟩
    · constructor
      · intro h
        exact absurd h (by decide)
      · intro h
        exact absurd hex h.1
    · constructor
      · intro h
        exact absurd h (by decide)
      · intro h
        exact absurd hex h.1
  · rw [if_neg hcomp]
    have hnex : ¬ ∃ company ∈ company_keywords,
        strIn (pyLower company) (pyLower author) = true ∨
        strIn (String.append ("official") (pyLower company)) (pyLower author) =
          true := by
      intro ⟨company, hc1, hc2⟩
      exact hcomp (List.any_eq_true.mpr
        ⟨company, hc1, Bool.or_eq_true _ _ |>.mpr hc2⟩)
    by_cases hrev : reviewer_indicators.any
        (fun ind => strIn ind (pyLower content))
    · rw [if_pos hrev]
      have hexr : ∃ ind ∈ reviewer_indicators,
          strIn ind (pyLower content) = true :=
        List.any_eq_true.mp hrev
      refine ⟨?_, ⟨fun _ => ⟨hnex, hexr⟩, fun _ => rfl⟩, ?_,
        Or.inr (Or.inl rfl)⟩
      · constructor
        · intro h
          exact absurd h (by decide)
        · intro h
          exact absurd h hnex
      · constructor
        · intro h
          exact absurd h (by decide)
        · intro h
          exact absurd hexr h.2
    · rw [if_neg hrev]
      have hnexr : ¬ ∃ ind ∈ reviewer_indicators,
          strIn ind (pyLower content) = true := by
        intro hc
        exact hrev (List.any_eq_true.mpr hc)
      refine ⟨?_, ?_, ⟨fun _ => ⟨hnex, hnexr⟩, fun _ => rfl⟩,
        Or.inr (Or.inr rfl)⟩
      · constructor
        · intro h
          exact absurd h (by decide)
        · intro h
          exact absurd h hnex
      · constructor
        · intro h
          exact absurd h (by decide)
        · intro h
          exact absurd h.2 hnexr

/-- Witness for `classify_source_type_spec`: an author handle containing a
competitor keyword is classified `Competitor`. -/
theorem classify_source_type_spec_witness :
    classify_source_type ("official_samsung_store") ("great phone")
      get_competitor_keywords = ("Competitor") :=
  (classify_source_type_spec ("official_samsung_store") ("great phone")
    get_competitor_keywords).1.mpr
    ⟨("samsung"), by decide, Or.inl (by decide)⟩

/-- C8, counterexample: the content mentions the competitor keyword
`huawei`, yet the function returns `Customer` — competitor keywords are
never matched against the content. -/
theorem classify_content_competitor_ignored :
    strIn (pyLower ("huawei")) (pyLower ("i love huawei")) = true ∧
    classify_source_type ("john") ("i love huawei")
      get_competitor_keywords = ("Customer") := by
  exact ⟨by decide, by decide⟩

/-! ### Pipeline persistence vs. validation (claim C9) -/

/-- C9, amended: the data-quality validator does fail a batch in which more
than 1% of rows has missing cleaned text, but the pipeline only records the
outcome: for every non-empty batch it persists all processed rows and
advances the watermark unconditionally — validation never blocks
persistence. -/
theorem pipeline_persists_regardless_of_validation
    (embed : String → List ℚ) (unescape : String → String)
    (bronze_posts : List BronzeRow) (h : bronze_posts ≠ []) :
    (process_bronze_to_silver embed unescape
        bronze_posts).watermark_advanced = true ∧
    (process_bronze_to_silver embed unescape bronze_posts).persisted =
      processRows embed unescape bronze_posts ∧
    (process_bronze_to_silver embed unescape bronze_posts).persisted ≠
      [] ∧
    (∀ rows : List ProcessedRow,
      (1 : ℚ) / 100 < (nullTextCount rows : ℚ) / (rows.length : ℚ) →
      validate_data_quality_passed rows = false) := by
  cases bronze_posts with
  | nil => exact absurd rfl h
  | cons r rs =>
    refine ⟨rfl, rfl, ?_, ?_⟩
    · show processRows embed unescape (r :: rs) ≠ []
      simp [processRows, deduplicate_posts, dedupAux]
    · intro rows hfrac
      rw [validate_data_quality_passed, decide_eq_true hfrac]
      rfl

/-- Witness for `pipeline_persists_regardless_of_validation` on a one-row
batch. -/
theorem pipeline_persists_regardless_of_validation_witness :
    (([⟨("id1"), ("john"), ("hi"), 0, 0, 0⟩] : List BronzeRow) ≠ []) ∧
    (process_bronze_to_silver (fun _ => List.replicate 384 0) id
        [⟨("id1"), ("john"), ("hi"), 0, 0, 0⟩]).watermark_advanced =
      true :=
  ⟨by simp,
    (pipeline_persists_regardless_of_validation
      (fun _ => List.replicate 384 0) id
      [⟨("id1"), ("john"), ("hi"), 0, 0, 0⟩] (by simp)).1⟩

/-- C9, counterexample: a one-row batch whose only content is empty fails
the quality validation (100% missing cleaned text, far above the 1%
threshold) and is nevertheless fully persisted, with the watermark
advanced. -/
theorem pipeline_persists_failing_batch :
    validate_data_quality_passed (processRows
        (fun _ => List.replicate 384 0) id
        [⟨("id1"), ("john"), (""), 0, 0, 0⟩]) = false ∧
    (process_bronze_to_silver (fun _ => List.replicate 384 0) id
        [⟨("id1"), ("john"), (""), 0, 0, 0⟩]).watermark_advanced = true ∧
    (process_bronze_to_silver (fun _ => List.replicate 384 0) id
        [⟨("id1"), ("john"), (""), 0, 0, 0⟩]).persisted ≠ [] := by
  refine ⟨?_, rfl, ?_⟩
  · have h1 : nullTextCount (processRows (fun _ => List.replicate 384 0) id
        [⟨("id1"), ("john"), (""), 0, 0, 0⟩]) = 1 := rfl
    have h2 : (processRows (fun _ => List.replicate 384 0) id
        [⟨("id1"), ("john"), (""), 0, 0, 0⟩]).length = 1 := rfl
    have h3 : invalidEmbeddingCount (processRows
        (fun _ => List.replicate 384 0) id
        [⟨("id1"), ("john"), (""), 0, 0, 0⟩]) = 0 := rfl
    rw [validate_data_quality_passed, h1, h2, h3]
    have hlt : (1 : ℚ) / 100 < ((1 : ℕ) : ℚ) / ((1 : ℕ) : ℚ) := by
      norm_num
    rw [decide_eq_true hlt]
    rfl
  · show processRows (fun _ => List.replicate 384 0) id
      [⟨("id1"), ("john"), (""), 0, 0, 0⟩] ≠ []
    simp [processRows, deduplicate_posts, dedupAux]

/-! ### Text cleaning: output alphabet and whitespace behavior
(claim C10) -/

theorem mem_stripEnds (l : List Char) (c : Char) (h : c ∈ stripEnds l) :
    c ∈ l := by
  rw [stripEnds] at h
  have h1 := List.mem_reverse.mp h
  have h2 := (List.dropWhile_sublist _).subset h1
  have h3 := List.mem_reverse.mp h2
  exact (List.dropWhile_sublist _).subset h3

theorem collapseWs_ws_is_space (l : List Char) :
    ∀ c ∈ collapseWs l, pyWhitespace c = true → c = ' ' := by
  induction l with
  | nil => simp [collapseWs]
  | cons c0 tail ih =>
    cases tail with
    | nil =>
      intro c hc hw
      rw [collapseWs] at hc
      by_cases h0 : pyWhitespace c0
      · rw [if_pos h0] at hc
        simpa using hc
      · rw [if_neg h0] at hc
        rw [List.mem_singleton] at hc
        rw [hc] at hw
        exact absurd hw (by simpa using h0)
    | cons d cs =>
      intro c hc hw
      rw [collapseWs] at hc
      by_cases h1 : pyWhitespace c0 && pyWhitespace d
      · rw [if_pos h1] at hc
        exact ih c hc hw
      · rw [if_neg h1] at hc
        rcases List.mem_cons.mp hc with rfl | hmem
        · by_cases h0 : pyWhitespace c0
          · rw [if_pos h0]
          · rw [if_neg h0] at hw ⊢
            exact absurd hw (by simpa using h0)
        · exact ih c hmem hw

/-- C10, amended: `clean_text` of the empty string is the empty string,
and every character of any output is a word character (alphanumeric or
underscore), a space, or one of `. , ! ?` — in particular `#`, `@`,
emojis and other symbols never survive.  (The collapse-to-single-space
and no-leading/trailing-whitespace clauses of the claim do not hold: the
final punctuation strip runs after the whitespace normalization and can
leave extra spaces behind.)  The theorem holds for every behavior of the
`html.unescape` collaborator. -/
theorem clean_text_alphabet (unescape : String → String)
    (raw_text : String) :
    clean_text unescape ("") = ("") ∧
    ∀ c ∈ (clean_text unescape raw_text).data,
      isWordChar c = true ∨ c = ' ' ∨ c = '.' ∨ c = ',' ∨ c = '!' ∨
        c = '?' := by
  refine ⟨rfl, ?_⟩
  intro c hc
  by_cases hraw : raw_text = ""
  · rw [clean_text, if_pos hraw] at hc
    simp at hc
  · rw [clean_text, if_neg hraw] at hc
    have hc5 : c ∈ ((stripEnds (collapseWs
        (((unescape (String.mk (urlStripFuel raw_text.data.length
          raw_text.data))).data).filter step3Keep))).filter step5Keep) := hc
    have hfl := List.mem_filter.mp hc5
    have hkeep := hfl.2
    rw [step5Keep, Bool.or_eq_true, Bool.or_eq_true, Bool.or_eq_true,
      Bool.or_eq_true, Bool.or_eq_true] at hkeep
    rcases hkeep with ((((hw | hs) | hp1) | hp2) | hp3) | hp4
    · exact Or.inl hw
    · have hmem := mem_stripEnds _ c hfl.1
      have := collapseWs_ws_is_space _ c hmem hs
      exact Or.inr (Or.inl this)
    · exact Or.inr (Or.inr (Or.inl (by simpa using hp1)))
    · exact Or.inr (Or.inr (Or.inr (Or.inl (by simpa using hp2))))
    · exact Or.inr (Or.inr (Or.inr (Or.inr (Or.inl (by simpa using hp3)))))
    · exact Or.inr (Or.inr (Or.inr (Or.inr (Or.inr (by simpa using hp4)))))

/-- Witness for `clean_text_alphabet` at a concrete input. -/
theorem clean_text_alphabet_witness :
    ('a' ∈ (clean_text id ("ab")).data) ∧
    (isWordChar 'a' = true ∨ 'a' = ' ' ∨ 'a' = '.' ∨ 'a' = ',' ∨
      'a' = '!' ∨ 'a' = '?') :=
  ⟨by decide, (clean_text_alphabet id ("ab")).2 'a' (by decide)⟩

/-- C10, counterexample: `clean_text("# hello")` is `" hello"` — the `#`
is removed only after whitespace normalization, leaving a leading space,
so the output is neither trimmed nor single-spaced as claimed. -/
theorem clean_text_leading_space :
    clean_text id ("# hello") = (" hello") ∧
    (clean_text id ("# hello")).data.head? = some ' ' := by
  exact ⟨by decide, by decide⟩
